import Mathlib

/-!
Verification of the example driver `example/yolo-v3/main.go` of the yolo-go
repository.  The annotation-folder parser `parseFolder` is embedded directly
from its Go source; the `main` function's control flow (mode dispatch,
detector path, training loop) is embedded as a trace-producing function over
an environment recording the outcomes of the external library calls
(gorgonia graph execution, image loading, solver steps).  Go `float64`/
`float32` values produced by `strconv.ParseFloat` are represented exactly as
rationals; the decimal grammar of `ParseFloat` is modelled, while its
hexadecimal forms, `inf`/`nan` keywords, digit-group underscores and range
overflow errors are not (no claim depends on them).
-/

set_option autoImplicit false

namespace YoloGo

/-- Whitespace recognised by Go's `unicode.IsSpace`, used by
`strings.TrimSpace`: the ASCII spaces, NEL, NBSP and the Unicode
`White_Space` code points. -/
def isGoSpace (c : Char) : Bool :=
  let n := c.toNat
  n == 32 || n == 9 || n == 10 || n == 13 || n == 11 || n == 12 ||
  n == 0x85 || n == 0xA0 || n == 0x1680 ||
  (0x2000 ≤ n && n ≤ 0x200A) ||
  n == 0x2028 || n == 0x2029 || n == 0x202F || n == 0x205F || n == 0x3000

/-- Embedding of Go `strings.TrimSpace`: drop leading and trailing
whitespace characters. -/
def trimSpace (l : List Char) : List Char :=
  ((l.dropWhile isGoSpace).reverse.dropWhile isGoSpace).reverse

/-- Splitting a character list at every character satisfying `p`, keeping
empty segments, with `cur` the (reversed) segment accumulated so far.  With
`p c = (c == sep)` this is Go `strings.Split` on the one-character
separator `sep`. -/
def splitWhenAux (p : Char → Bool) : List Char → List Char → List (List Char)
  | cur, [] => [cur.reverse]
  | cur, c :: rest =>
    if p c then cur.reverse :: splitWhenAux p [] rest
    else splitWhenAux p (c :: cur) rest

/-- Splitting a character list at every character satisfying `p`. -/
def splitWhen (p : Char → Bool) (l : List Char) : List (List Char) :=
  splitWhenAux p [] l

/-- Numeric value of a digit string, most significant digit first. -/
def digitsVal (l : List Char) : ℕ :=
  l.foldl (fun a c => 10 * a + (c.toNat - 48)) 0

/-- Exponent part of a float literal after the `e`/`E`: an optional sign
followed by a nonempty digit string, as an integer. -/
def parseExpInt : List Char → Option ℤ
  | '+' :: r => if r ≠ [] ∧ r.all Char.isDigit then some (digitsVal r) else none
  | '-' :: r => if r ≠ [] ∧ r.all Char.isDigit then some (-(digitsVal r : ℤ)) else none
  | l => if l ≠ [] ∧ l.all Char.isDigit then some (digitsVal l) else none

/-- Unsigned decimal part of Go `strconv.ParseFloat`: digits, an optional
`.` with fraction digits (at least one digit in the mantissa overall), and
an optional `e`/`E` exponent; the whole input must be consumed.  Returns
the mantissa digits as a natural number, the number of fraction digits,
and the exponent, describing the value `mantissa * 10 ^ (exp - frac)`. -/
def goParseFloatCore (l : List Char) : Option (ℕ × ℕ × ℤ) :=
  let (ip, r1) := l.span Char.isDigit
  match r1 with
  | [] => if ip = [] then none else some (digitsVal ip, 0, 0)
  | '.' :: r2 =>
    let (fp, r3) := r2.span Char.isDigit
    if ip = [] ∧ fp = [] then none
    else
      let m := digitsVal ip * 10 ^ fp.length + digitsVal fp
      match r3 with
      | [] => some (m, fp.length, 0)
      | e :: r4 =>
        if e = 'e' ∨ e = 'E' then
          (parseExpInt r4).map (fun ex => (m, fp.length, ex))
        else none
  | e :: r2 =>
    if (e = 'e' ∨ e = 'E') ∧ ip ≠ [] then
      (parseExpInt r2).map (fun ex => (digitsVal ip, 0, ex))
    else none

/-- The rational value `sign * mant * 10 ^ (ex - scale)` of a decimal
float literal, assembled with integer arithmetic only. -/
def decToRat (neg : Bool) (mant : ℕ) (scale : ℕ) (ex : ℤ) : ℚ :=
  let sign : ℤ := if neg then -1 else 1
  let p : ℤ := ex - scale
  if 0 ≤ p then mkRat (sign * mant * 10 ^ p.toNat) 1
  else mkRat (sign * mant) (10 ^ (-p).toNat)

/-- Embedding of Go `strconv.ParseFloat` (decimal forms): an optional sign
followed by an unsigned decimal float. -/
def goParseFloat : List Char → Option ℚ
  | '+' :: r => (goParseFloatCore r).map (fun x => decToRat false x.1 x.2.1 x.2.2)
  | '-' :: r => (goParseFloatCore r).map (fun x => decToRat true x.1 x.2.1 x.2.2)
  | l => (goParseFloatCore l).map (fun x => decToRat false x.1 x.2.1 x.2.2)

/-- The token loop of `parseFolder`: each raw token is trimmed, empty
tokens are skipped, and every remaining token must parse as a float; the
first failure aborts with `none`. -/
def parseTokens : List (List Char) → Option (List ℚ)
  | [] => some []
  | t :: ts =>
    let e := trimSpace t
    if e = [] then parseTokens ts
    else
      match goParseFloat e with
      | none => none
      | some q => (parseTokens ts).map (fun l => q :: l)

/-- The raw tokens `parseFolder` builds from a file's content: replace
`\n` by a space (`strings.ReplaceAll`), then split on single spaces
(`strings.Split`). -/
def contentTokens (content : String) : List (List Char) :=
  splitWhen (fun c => c == ' ')
    (content.toList.map (fun c => if c = '\n' then ' ' else c))

/-- File-content processing of `parseFolder`: tokenise, then run the
token loop. -/
def parseContent (content : String) : Option (List ℚ) :=
  parseTokens (contentTokens content)

/-- Suffix of a file name starting at its last dot, as a character list;
`none` when the name has no dot.  Helper for `goExt`. -/
def extAux : List Char → Option (List Char)
  | [] => none
  | c :: rest =>
    match extAux rest with
    | some e => some e
    | none => if c = '.' then some (c :: rest) else none

/-- Embedding of Go `path/filepath.Ext` on a bare file name: the suffix
beginning at the final dot, empty when there is no dot. -/
def goExt (name : String) : String :=
  match extAux name.toList with
  | some e => String.mk e
  | none => ""

/-- The key used by `parseFolder`: `strings.Split(name, ".")[0]`, i.e. the
name truncated at its first dot. -/
def stemOf (name : String) : String :=
  String.mk (name.toList.takeWhile (fun c => c ≠ '.'))

/-- A directory entry as seen by `ioutil.ReadDir`: a name, a directory
flag, and (for regular files) the file's content. -/
structure DirEntry where
  name : String
  isDir : Bool
  content : String
  deriving DecidableEq

/-- The entries `parseFolder` parses: non-directories whose extension is
exactly `.txt`. -/
def isTxtEntry (e : DirEntry) : Prop :=
  e.isDir = false ∧ goExt e.name = ".txt"

instance (e : DirEntry) : Decidable (isTxtEntry e) := by
  unfold isTxtEntry; infer_instance

/-- Go map assignment `m[k] = v` on an association list: overwrite the
existing binding for `k`, or append a new one. -/
def insertA (m : List (String × List ℚ)) (k : String) (v : List ℚ) :
    List (String × List ℚ) :=
  match m with
  | [] => [(k, v)]
  | (k', v') :: rest => if k' = k then (k, v) :: rest else (k', v') :: insertA rest k v

/-- Go map lookup on an association list. -/
def lookupA (m : List (String × List ℚ)) (k : String) : Option (List ℚ) :=
  match m with
  | [] => none
  | (k', v') :: rest => if k' = k then some v' else lookupA rest k

/-- Errors of `parseFolder`: a malformed float token, or a directory
without any `.txt` file. -/
inductive PError where
  | malformed
  | emptyDataset
  deriving DecidableEq

deriving instance DecidableEq for Except

/-- The entry loop of `parseFolder`: skip directories and non-`.txt`
entries, parse each `.txt` file's content (aborting on the first malformed
token as the Go code returns `nil, err`), and assign the parsed vector to
the file's stem in the accumulated map. -/
def parseFolderAux : List DirEntry → List (String × List ℚ) →
    Except PError (List (String × List ℚ))
  | [], acc => .ok acc
  | e :: rest, acc =>
    if e.isDir = true ∨ goExt e.name ≠ ".txt" then parseFolderAux rest acc
    else
      match parseContent e.content with
      | none => .error .malformed
      | some v => parseFolderAux rest (insertA acc (stemOf e.name) v)

/-- Embedding of `parseFolder` from `example/yolo-v3/main.go`: run the
entry loop on an empty map, then fail with the empty-dataset error when no
`.txt` file contributed a key. -/
def parseFolder (entries : List DirEntry) :
    Except PError (List (String × List ℚ)) :=
  match parseFolderAux entries [] with
  | .error e => .error e
  | .ok t => if t = [] then .error .emptyDataset else .ok t

/-- Tokenisation following the spec's words ("split on whitespace
(including newlines), discard empty tokens"): this is Go `strings.Fields`,
splitting on every Unicode whitespace character.  It is deliberately NOT
taken from the source — it is the spec-side reading of
"whitespace-separated", to be compared against `parseContent`. -/
def fieldsWS (s : String) : List (List Char) :=
  (splitWhen isGoSpace s.toList).filter (fun t => t ≠ [])

/-- The spec-side reading of "content is valid whitespace-separated float
tokens": every whitespace-separated field parses as a float. -/
def specValidContent (s : String) : Prop :=
  ∀ t ∈ fieldsWS s, (goParseFloat t).isSome

instance (s : String) : Decidable (specValidContent s) := by
  unfold specValidContent; infer_instance

/-! ## Detections and post-processing

`model.ProcessOutput(cocoClasses, scoreThreshold, iouThreshold)` is
implemented by the yolo-go library root, whose source is not part of the
example driver; it is modelled here from the spec. -/

/-- A bounding box by its four corner coordinates. -/
structure Box where
  x1 : ℚ
  y1 : ℚ
  x2 : ℚ
  y2 : ℚ
  deriving DecidableEq

/-- A detection: class label, confidence score, bounding box. -/
structure Detection where
  label : String
  score : ℚ
  box : Box
  deriving DecidableEq

/-- Area of a box. -/
def area (a : Box) : ℚ :=
  (a.x2 - a.x1) * (a.y2 - a.y1)

/-- Area of the intersection of two boxes (zero when they do not
overlap). -/
def interArea (a b : Box) : ℚ :=
  max 0 (min a.x2 b.x2 - max a.x1 b.x1) * max 0 (min a.y2 b.y2 - max a.y1 b.y1)

/-- Intersection-over-union of two boxes (division by zero yields zero). -/
def iou (a b : Box) : ℚ :=
  interArea a b / (area a + area b - interArea a b)

/-- The fixed score threshold of the driver (`scoreThreshold = 0.8`). -/
def scoreThreshold : ℚ := mkRat 4 5

/-- The fixed IoU threshold of the driver (`iouThreshold = 0.3`). -/
def iouThreshold : ℚ := mkRat 3 10

/-- A detection is suppressed when an already kept detection of the same
class overlaps it with IoU above the threshold. -/
def suppressed (kept : List Detection) (d : Detection) : Prop :=
  ∃ k ∈ kept, k.label = d.label ∧ iouThreshold < iou k.box d.box

instance (kept : List Detection) (d : Detection) : Decidable (suppressed kept d) := by
  unfold suppressed; infer_instance

/-- Greedy per-class IoU suppression over a worklist, accumulating the
kept detections in order. -/
def nmsAux : List Detection → List Detection → List Detection
  | kept, [] => kept
  | kept, d :: rest =>
    if suppressed kept d then nmsAux kept rest
    else nmsAux (kept ++ [d]) rest

/-- Insertion into a score-descending list, before the first strictly
lower-scoring element. -/
def insertByScore (d : Detection) : List Detection → List Detection
  | [] => [d]
  | x :: xs => if x.score < d.score then d :: x :: xs else x :: insertByScore d xs

/-- Sort detections by descending confidence score. -/
def sortByScore (l : List Detection) : List Detection :=
  l.foldr insertByScore []

/-- Modelled from the spec: `Model.ProcessOutput` of the yolo-go library
(its source is outside the example driver).  Per the spec, it discards
boxes with confidence below the score threshold, then applies IoU-based
suppression per class, keeping the higher-scoring box of any overlapping
pair. -/
def processOutput (dets : List Detection) : List Detection :=
  nmsAux [] (sortByScore (dets.filter (fun d => decide (scoreThreshold ≤ d.score))))

/-! ## The `main` driver as a trace-producing function

`main` is sequencing of calls into gorgonia and yolo-go; its control flow
is embedded as a function from an environment (recording the success or
failure of every external call, and the raw data the external calls
produce) to the list of actions the driver performs, in order. -/

/-- The failure points of `main`, one per `fmt.Printf`-and-return (or
report-and-continue, for the solver step) site. -/
inductive ErrKind where
  | construct
  | imageLoad
  | bindInput
  | runGraph
  | postprocess
  | annotations
  | activate
  | concat
  | sums
  | grad
  | compile
  | setTarget
  | solverStep
  | badMode
  deriving DecidableEq

/-- The observable actions of one run of `main`, in program order. -/
inductive MainEvent where
  | buildModel (ok : Bool)
  | printModel
  | imageLoad (ok : Bool)
  | setTarget (ok : Bool)
  | bindInput (ok : Bool)
  | runGraph (ok : Bool)
  | resetMachine
  | postprocess (ok : Bool)
  | printDetections (dets : List Detection)
  | parseAnnotations (ok : Bool)
  | stepCall (iter : ℕ) (lr : ℚ) (ok : Bool)
  | reportError (k : ErrKind)
  deriving DecidableEq

/-- Outcomes of the external calls made for one training sample. -/
structure SampleEnv where
  imageLoadOk : Bool
  setTargetOk : Bool
  bindInputOk : Bool
  runGraphOk : Bool
  stepOk : Bool
  deriving DecidableEq

/-- Initial learning rate of the RMSProp solver (`0.00001`). -/
def lrInitial : ℚ := mkRat 1 100000

/-- Learning rate installed when `iter == 15` (`0.000001`). -/
def lrAfter15 : ℚ := mkRat 1 1000000

/-- Learning rate installed when `iter == 150` (`0.0000001`). -/
def lrAfter150 : ℚ := mkRat 1 10000000

/-- The learning-rate updates performed between `tm.RunAll()` and
`solver.Step(...)`: at `iter == 15` the solver is replaced by one with
rate `1e-6`, at `iter == 150` by one with rate `1e-7`. -/
def lrStep (lr : ℚ) (iter : ℕ) : ℚ :=
  let lr1 := if iter = 15 then lrAfter15 else lr
  if iter = 150 then lrAfter150 else lr1

/-- The training loop of `main` over the annotation map's keys, one
`SampleEnv` per key in iteration order, starting at iteration counter
`iter` with current solver rate `lr`.  Per sample: load the image
(fatal on failure), set the target (fatal), bind the input (fatal), run
the tape machine (fatal), update the learning rate, call `solver.Step`
(reported but non-fatal on failure), reset the tape machine.  Returns the
events of the loop and the failure that aborted it, if any. -/
def trainLoopAux : ℕ → ℚ → List SampleEnv → List MainEvent × Option ErrKind
  | _, _, [] => ([], none)
  | iter, lr, s :: rest =>
    if s.imageLoadOk = false then
      ([.imageLoad false, .reportError .imageLoad], some .imageLoad)
    else if s.setTargetOk = false then
      ([.imageLoad true, .setTarget false, .reportError .setTarget], some .setTarget)
    else if s.bindInputOk = false then
      ([.imageLoad true, .setTarget true, .bindInput false, .reportError .bindInput],
        some .bindInput)
    else if s.runGraphOk = false then
      ([.imageLoad true, .setTarget true, .bindInput true, .runGraph false,
        .reportError .runGraph], some .runGraph)
    else
      let lr2 := lrStep lr iter
      let (evs, ab) := trainLoopAux (iter + 1) lr2 rest
      ([.imageLoad true, .setTarget true, .bindInput true, .runGraph true,
        .stepCall iter lr2 s.stepOk] ++
       (if s.stepOk = true then [] else [.reportError .solverStep]) ++
       [.resetMachine] ++ evs, ab)

/-- Outcomes of the external calls of the detector path. -/
structure DetectorEnv where
  imageLoadOk : Bool
  bindInputOk : Bool
  runGraphOk : Bool
  postprocessOk : Bool
  rawDets : List Detection
  deriving DecidableEq

/-- The detector path of `main`: load the image, bind it to the input,
run the tape machine, reset it, post-process, print the detections; every
failure is reported and ends the run. -/
def detectorTrace (d : DetectorEnv) : List MainEvent :=
  if d.imageLoadOk = false then [.imageLoad false, .reportError .imageLoad]
  else if d.bindInputOk = false then
    [.imageLoad true, .bindInput false, .reportError .bindInput]
  else if d.runGraphOk = false then
    [.imageLoad true, .bindInput true, .runGraph false, .reportError .runGraph]
  else if d.postprocessOk = false then
    [.imageLoad true, .bindInput true, .runGraph true, .resetMachine,
     .postprocess false, .reportError .postprocess]
  else
    [.imageLoad true, .bindInput true, .runGraph true, .resetMachine,
     .postprocess true, .printDetections (processOutput d.rawDets)]

/-- Outcomes of the external calls of the training path made before the
loop, plus the directory listing fed to `parseFolder` and the per-sample
outcomes. -/
structure TrainEnv where
  trainDir : List DirEntry
  activateOk : Bool
  concatOk : Bool
  sumOk : Bool
  gradOk : Bool
  compileOk : Bool
  samples : List SampleEnv
  deriving DecidableEq

/-- The training path of `main`: parse the annotation folder, activate
training mode, build the loss graph (concat, sum, grad, compile) — each
failure reported and fatal — then run the training loop with the solver
at the initial learning rate. -/
def trainingTrace (t : TrainEnv) : List MainEvent :=
  match parseFolder t.trainDir with
  | .error _ => [.parseAnnotations false, .reportError .annotations]
  | .ok _ =>
    .parseAnnotations true ::
    (if t.activateOk = false then [.reportError .activate]
     else if t.concatOk = false then [.reportError .concat]
     else if t.sumOk = false then [.reportError .sums]
     else if t.gradOk = false then [.reportError .grad]
     else if t.compileOk = false then [.reportError .compile]
     else (trainLoopAux 0 lrInitial t.samples).1)

/-- The whole environment of one run of `main`. -/
structure MainEnv where
  constructOk : Bool
  mode : String
  det : DetectorEnv
  train : TrainEnv
  deriving DecidableEq

/-- Lower-casing of one character, as done by Go `strings.ToLower`
(restricted to ASCII letters, which covers the two recognised modes). -/
def lowerChar (c : Char) : Char :=
  if 'A' ≤ c ∧ c ≤ 'Z' then Char.ofNat (c.toNat + 32) else c

/-- Embedding of Go `strings.ToLower` (ASCII letters). -/
def goToLower (s : String) : String :=
  String.mk (s.toList.map lowerChar)

/-- The mode dispatch of `main`: `switch strings.ToLower(*modeStr)` over
`"detector"`, `"training"`, and the default branch reporting the
unimplemented mode. -/
def modeDispatch (env : MainEnv) : List MainEvent :=
  if goToLower env.mode = "detector" then detectorTrace env.det
  else if goToLower env.mode = "training" then trainingTrace env.train
  else [.reportError .badMode]

/-- Embedding of `main`: build the YOLOv3 network (reporting a
construction failure and stopping), print the model, then dispatch on the
lower-cased mode string. -/
def mainTrace (env : MainEnv) : List MainEvent :=
  if env.constructOk = false then [.buildModel false, .reportError .construct]
  else .buildModel true :: .printModel :: modeDispatch env

/-- The iteration indices of the `solver.Step` calls of a trace, in
order. -/
def stepIters (evs : List MainEvent) : List ℕ :=
  evs.filterMap (fun e =>
    match e with
    | .stepCall i _ _ => some i
    | _ => none)

/-- Events that belong to one of the two mode-specific paths (everything
except building and printing the model and reporting an error). -/
def isModeEvent : MainEvent → Bool
  | .buildModel _ => false
  | .printModel => false
  | .reportError _ => false
  | _ => true

/-- The learning rate the Go code's schedule yields for the `solver.Step`
call of iteration `i`: `1e-5` before 15 completed iterations, `1e-6` from
iteration 15 on, `1e-7` from iteration 150 on. -/
def scheduleLR (i : ℕ) : ℚ :=
  if i < 15 then lrInitial else if i < 150 then lrAfter15 else lrAfter150

/-- The solver's learning rate on entry to iteration `n` (before the
scheduled update of that iteration): the initial rate for iteration 0,
and the rate the previous iteration stepped with otherwise. -/
def prevLR : ℕ → ℚ
  | 0 => lrInitial
  | n + 1 => scheduleLR n

/-- The events of one fully successful training iteration `i`. -/
def okBlock (i : ℕ) : List MainEvent :=
  [.imageLoad true, .setTarget true, .bindInput true, .runGraph true,
   .stepCall i (scheduleLR i) true, .resetMachine]

/-- A directory entry refuting the "whitespace-separated" reading: a
`.txt` file whose two float tokens are separated by a tab. -/
def cexEntry : DirEntry :=
  ⟨"a.txt", false, "1.0\t2.0"⟩

/-! ## Lemmas about `parseFolder` -/

theorem lookupA_insertA (m : List (String × List ℚ)) (k q : String) (v : List ℚ) :
    lookupA (insertA m k v) q = if q = k then some v else lookupA m q := by
  induction m with
  | nil =>
    by_cases h : q = k
    · simp [insertA, lookupA, h]
    · simp [insertA, lookupA, h, Ne.symm h]
  | cons p rest ih =>
    obtain ⟨k0, v0⟩ := p
    by_cases h0 : k0 = k
    · subst h0
      by_cases h : q = k0
      · simp [insertA, lookupA, h]
      · simp [insertA, lookupA, h, Ne.symm h]
    · by_cases h1 : k0 = q
      · have hqk : ¬ q = k := fun hc => h0 (h1.trans hc)
        simp [insertA, lookupA, h0, h1, hqk]
      · simp [insertA, lookupA, h0, h1, ih]

theorem parseFolderAux_ok (entries : List DirEntry) :
    ∀ acc : List (String × List ℚ),
    (∀ e ∈ entries, isTxtEntry e → (parseContent e.content).isSome) →
    ∃ m, parseFolderAux entries acc = .ok m
      ∧ (∀ k v, lookupA m k = some v →
          (∃ e ∈ entries, isTxtEntry e ∧ stemOf e.name = k ∧
            parseContent e.content = some v) ∨ lookupA acc k = some v)
      ∧ (∀ e ∈ entries, isTxtEntry e → (lookupA m (stemOf e.name)).isSome)
      ∧ (∀ k, (lookupA acc k).isSome → (lookupA m k).isSome) := by
  induction entries with
  | nil =>
    intro acc _
    exact ⟨acc, rfl, fun k v h => Or.inr h, by simp, fun k h => h⟩
  | cons e rest ih =>
    intro acc hall
    by_cases he : isTxtEntry e
    · obtain ⟨v1, hv1⟩ := Option.isSome_iff_exists.mp (hall e (by simp) he)
      have hcond : ¬ (e.isDir = true ∨ goExt e.name ≠ ".txt") := by
        rcases he with ⟨h1, h2⟩
        simp [h1, h2]
      obtain ⟨m, hm, hval, hkey, hacc⟩ :=
        ih (insertA acc (stemOf e.name) v1)
          (fun e' he' ht => hall e' (by simp [he']) ht)
      have hstep : parseFolderAux (e :: rest) acc =
          parseFolderAux rest (insertA acc (stemOf e.name) v1) := by
        simp only [parseFolderAux, if_neg hcond, hv1]
      refine ⟨m, hstep ▸ hm, ?_, ?_, ?_⟩
      · intro k v h
        rcases hval k v h with h' | h'
        · obtain ⟨e', he', rest'⟩ := h'
          exact Or.inl ⟨e', by simp [he'], rest'⟩
        · rw [lookupA_insertA] at h'
          by_cases hk : k = stemOf e.name
          · rw [if_pos hk] at h'
            exact Or.inl ⟨e, by simp, he, hk.symm, by rw [hv1, h']⟩
          · rw [if_neg hk] at h'
            exact Or.inr h'
      · intro e' he' ht
        rcases List.mem_cons.mp he' with rfl | hmem
        · apply hacc
          rw [lookupA_insertA, if_pos rfl]
          rfl
        · exact hkey e' hmem ht
      · intro k hk
        apply hacc
        rw [lookupA_insertA]
        by_cases hkq : k = stemOf e.name
        · rw [if_pos hkq]; rfl
        · rw [if_neg hkq]; exact hk
    · have hcond : e.isDir = true ∨ goExt e.name ≠ ".txt" := by
        by_contra hc
        push_neg at hc
        exact he ⟨Bool.not_eq_true e.isDir ▸ hc.1, hc.2⟩
      obtain ⟨m, hm, hval, hkey, hacc⟩ :=
        ih acc (fun e' he' ht => hall e' (by simp [he']) ht)
      have hstep : parseFolderAux (e :: rest) acc = parseFolderAux rest acc := by
        simp only [parseFolderAux, if_pos hcond]
      refine ⟨m, hstep ▸ hm, ?_, ?_, hacc⟩
      · intro k v h
        rcases hval k v h with h' | h'
        · obtain ⟨e', he', rest'⟩ := h'
          exact Or.inl ⟨e', by simp [he'], rest'⟩
        · exact Or.inr h'
      · intro e' he' ht
        rcases List.mem_cons.mp he' with rfl | hmem
        · exact absurd ht he
        · exact hkey e' hmem ht

theorem parseTokens_none (toks : List (List Char))
    (h : ∃ t ∈ toks, trimSpace t ≠ [] ∧ goParseFloat (trimSpace t) = none) :
    parseTokens toks = none := by
  induction toks with
  | nil => simp at h
  | cons t1 rest ih =>
    obtain ⟨t, ht, hne, hfail⟩ := h
    rcases List.mem_cons.mp ht with rfl | hmem
    · simp only [parseTokens, if_neg hne, hfail]
    · by_cases h1 : trimSpace t1 = []
      · simp only [parseTokens, if_pos h1]
        exact ih ⟨t, hmem, hne, hfail⟩
      · simp only [parseTokens, if_neg h1]
        cases hg : goParseFloat (trimSpace t1) with
        | none => rfl
        | some q => rw [ih ⟨t, hmem, hne, hfail⟩]; rfl

theorem parseFolderAux_malformed (entries : List DirEntry)
    (h : ∃ e ∈ entries, isTxtEntry e ∧ parseContent e.content = none) :
    ∀ acc, parseFolderAux entries acc = .error .malformed := by
  induction entries with
  | nil => simp at h
  | cons e1 rest ih =>
    intro acc
    obtain ⟨e, he, htxt, hnone⟩ := h
    rcases List.mem_cons.mp he with rfl | hmem
    · have hcond : ¬ (e.isDir = true ∨ goExt e.name ≠ ".txt") := by
        rcases htxt with ⟨h1, h2⟩
        simp [h1, h2]
      simp only [parseFolderAux, if_neg hcond, hnone]
    · by_cases hc : e1.isDir = true ∨ goExt e1.name ≠ ".txt"
      · simp only [parseFolderAux, if_pos hc]
        exact ih ⟨e, hmem, htxt, hnone⟩ acc
      · simp only [parseFolderAux, if_neg hc]
        cases hg : parseContent e1.content with
        | none => rfl
        | some v => exact ih ⟨e, hmem, htxt, hnone⟩ _

theorem parseFolderAux_no_txt (entries : List DirEntry)
    (h : ∀ e ∈ entries, ¬ isTxtEntry e) :
    ∀ acc, parseFolderAux entries acc = .ok acc := by
  induction entries with
  | nil => intro acc; rfl
  | cons e rest ih =>
    intro acc
    have hcond : e.isDir = true ∨ goExt e.name ≠ ".txt" := by
      by_contra hc
      push_neg at hc
      exact h e (by simp) ⟨Bool.not_eq_true e.isDir ▸ hc.1, hc.2⟩
    simp only [parseFolderAux, if_pos hcond]
    exact ih (fun e' he' => h e' (by simp [he'])) acc

theorem dropWhile_all {p : Char → Bool} {l : List Char}
    (h : ∀ c ∈ l, p c = true) : l.dropWhile p = [] := by
  induction l with
  | nil => rfl
  | cons c rest ih =>
    rw [List.dropWhile_cons, if_pos (h c (by simp))]
    exact ih (fun c' hc' => h c' (by simp [hc']))

theorem trimSpace_all {l : List Char}
    (h : ∀ c ∈ l, isGoSpace c = true) : trimSpace l = [] := by
  simp [trimSpace, dropWhile_all h]

theorem splitWhenAux_mem (p : Char → Bool) :
    ∀ (l cur t : List Char), t ∈ splitWhenAux p cur l → ∀ c ∈ t, c ∈ cur ∨ c ∈ l := by
  intro l
  induction l with
  | nil =>
    intro cur t ht c hc
    simp only [splitWhenAux, List.mem_singleton] at ht
    subst ht
    exact Or.inl (List.mem_reverse.mp hc)
  | cons c1 rest ih =>
    intro cur t ht c hc
    by_cases hp : p c1 = true
    · simp only [splitWhenAux, if_pos hp] at ht
      rcases List.mem_cons.mp ht with rfl | hmem
      · exact Or.inl (List.mem_reverse.mp hc)
      · rcases ih [] t hmem c hc with h | h
        · simp at h
        · exact Or.inr (by simp [h])
    · simp only [splitWhenAux, if_neg hp] at ht
      rcases ih (c1 :: cur) t ht c hc with h | h
      · rcases List.mem_cons.mp h with rfl | h'
        · exact Or.inr (by simp)
        · exact Or.inl h'
      · exact Or.inr (by simp [h])

theorem parseTokens_all_space (toks : List (List Char))
    (h : ∀ t ∈ toks, ∀ c ∈ t, isGoSpace c = true) : parseTokens toks = some [] := by
  induction toks with
  | nil => rfl
  | cons t rest ih =>
    have ht : trimSpace t = [] := trimSpace_all (h t (by simp))
    simp only [parseTokens, if_pos ht]
    exact ih (fun t' ht' => h t' (by simp [ht']))

theorem parseContent_all_space (content : String)
    (h : ∀ c ∈ content.toList, isGoSpace c = true) : parseContent content = some [] := by
  apply parseTokens_all_space
  intro t ht c hc
  have ht' : t ∈ splitWhenAux (fun c => c == ' ') []
      (content.toList.map (fun c => if c = '\n' then ' ' else c)) := ht
  rcases splitWhenAux_mem _ _ [] t ht' c hc with h' | h'
  · simp at h'
  · obtain ⟨c0, hc0, rfl⟩ := List.mem_map.mp h'
    by_cases hnl : c0 = '\n'
    · rw [if_pos hnl]
      decide
    · rw [if_neg hnl]
      exact h c0 hc0

/-! ## The `parseFolder` claims -/

/-- Claim C1, counterexample: the directory holding the single `.txt`
file `a.txt` with content `"1.0\t2.0"` consists of whitespace-separated
valid float tokens (in the spec's words: split on whitespace, every token
parses), yet `parseFolder` fails with the malformed-annotation error
instead of returning the promised map — the code only separates on
spaces and newlines, not on other whitespace such as tabs. -/
theorem parseFolder_whitespace_reading_cex :
    (isTxtEntry cexEntry ∧ specValidContent cexEntry.content)
    ∧ parseFolder [cexEntry] = .error .malformed := by
  decide

/-- Claim C1 (amended: tokens are separated by spaces and newlines, each
token trimmed of surrounding whitespace — not by arbitrary whitespace):
for a directory with at least one `.txt` file, all of whose `.txt` files'
contents parse, `parseFolder` returns a map whose key set is exactly the
set of the `.txt` files' stems (truncated at the first dot), each key
bound to the float sequence parsed, in file order, from a `.txt` file
with that stem. -/
theorem parseFolder_valid_folder_map (entries : List DirEntry)
    (hex : ∃ e ∈ entries, isTxtEntry e)
    (hall : ∀ e ∈ entries, isTxtEntry e → (parseContent e.content).isSome) :
    ∃ m, parseFolder entries = .ok m
      ∧ (∀ k, (lookupA m k).isSome ↔ ∃ e ∈ entries, isTxtEntry e ∧ stemOf e.name = k)
      ∧ (∀ k v, lookupA m k = some v →
          ∃ e ∈ entries, isTxtEntry e ∧ stemOf e.name = k ∧
            parseContent e.content = some v) := by
  obtain ⟨m, hm, hval, hkey, _⟩ := parseFolderAux_ok entries [] hall
  have hvals : ∀ k v, lookupA m k = some v →
      ∃ e ∈ entries, isTxtEntry e ∧ stemOf e.name = k ∧
        parseContent e.content = some v := by
    intro k v h
    rcases hval k v h with h' | h'
    · exact h'
    · simp [lookupA] at h'
  have hne : m ≠ [] := by
    obtain ⟨e0, he0, ht0⟩ := hex
    have hs := hkey e0 he0 ht0
    intro hnil
    rw [hnil] at hs
    simp [lookupA] at hs
  refine ⟨m, ?_, ?_, hvals⟩
  · have heq : parseFolder entries =
        if m = [] then Except.error PError.emptyDataset else .ok m := by
      unfold parseFolder
      rw [hm]
    rw [heq, if_neg hne]
  · intro k
    constructor
    · intro hs
      obtain ⟨v, hv⟩ := Option.isSome_iff_exists.mp hs
      obtain ⟨e, he, ht, hst, _⟩ := hvals k v hv
      exact ⟨e, he, ht, hst⟩
    · rintro ⟨e, he, ht, hst⟩
      exact hst ▸ hkey e he ht

/-- Directory used to witness the amended C1 claim: one valid annotation
file next to an ignored non-`.txt` file. -/
def wdirC1 : List DirEntry :=
  [⟨"sample1.txt", false, "0.1 0.2 0.3 0.4"⟩, ⟨"img.jpg", false, "not floats"⟩]

/-- Witness for the amended C1 claim at a concrete directory. -/
theorem parseFolder_valid_folder_map_witness :
    (∃ e ∈ wdirC1, isTxtEntry e)
    ∧ (∀ e ∈ wdirC1, isTxtEntry e → (parseContent e.content).isSome)
    ∧ (∃ m, parseFolder wdirC1 = .ok m
        ∧ (∀ k, (lookupA m k).isSome ↔
            ∃ e ∈ wdirC1, isTxtEntry e ∧ stemOf e.name = k)
        ∧ (∀ k v, lookupA m k = some v →
            ∃ e ∈ wdirC1, isTxtEntry e ∧ stemOf e.name = k ∧
              parseContent e.content = some v)) :=
  ⟨by decide, by decide, parseFolder_valid_folder_map wdirC1 (by decide) (by decide)⟩

/-- Claim C2: if some `.txt` file of the directory has a (trimmed,
nonempty) token that does not parse as a float, `parseFolder` fails with
the malformed-annotation error; no partial map is returned. -/
theorem parseFolder_malformed_token (entries : List DirEntry)
    (h : ∃ e ∈ entries, isTxtEntry e ∧ ∃ t ∈ contentTokens e.content,
      trimSpace t ≠ [] ∧ goParseFloat (trimSpace t) = none) :
    parseFolder entries = .error .malformed := by
  obtain ⟨e, he, htxt, hbad⟩ := h
  have hnone : parseContent e.content = none := parseTokens_none _ hbad
  have haux := parseFolderAux_malformed entries ⟨e, he, htxt, hnone⟩ []
  unfold parseFolder
  rw [haux]

/-- Witness for C2 at the spec's own example content `"1.0 abc 2.0"`. -/
theorem parseFolder_malformed_token_witness :
    (∃ e ∈ [(⟨"a.txt", false, "1.0 abc 2.0"⟩ : DirEntry)],
      isTxtEntry e ∧ ∃ t ∈ contentTokens e.content,
        trimSpace t ≠ [] ∧ goParseFloat (trimSpace t) = none)
    ∧ parseFolder [⟨"a.txt", false, "1.0 abc 2.0"⟩] = .error .malformed :=
  ⟨by decide, parseFolder_malformed_token _ (by decide)⟩

/-- Claim C3: a (readable) directory with no non-directory `.txt` entry
makes `parseFolder` fail with the empty-dataset error; no map is
returned. -/
theorem parseFolder_empty_dataset (entries : List DirEntry)
    (h : ∀ e ∈ entries, ¬ isTxtEntry e) :
    parseFolder entries = .error .emptyDataset := by
  have haux := parseFolderAux_no_txt entries h []
  unfold parseFolder
  rw [haux]
  rfl

/-- Witness for C3: a directory holding only a `.jpg` file and a
subdirectory named like a `.txt` file. -/
theorem parseFolder_empty_dataset_witness :
    (∀ e ∈ [(⟨"dog.jpg", false, "img"⟩ : DirEntry), ⟨"notes.txt", true, ""⟩],
      ¬ isTxtEntry e)
    ∧ parseFolder [(⟨"dog.jpg", false, "img"⟩ : DirEntry), ⟨"notes.txt", true, ""⟩] =
      .error .emptyDataset :=
  ⟨by decide, parseFolder_empty_dataset _ (by decide)⟩

/-- Claim C9: a `.txt` file whose content is empty or all whitespace is
parsed without error to the empty float vector, and by itself satisfies
the at-least-one-`.txt`-file check, so the empty-dataset error is not
raised. -/
theorem parseFolder_whitespace_only_file (name content : String)
    (hext : goExt name = ".txt") (hws : ∀ c ∈ content.toList, isGoSpace c = true) :
    parseFolder [⟨name, false, content⟩] = .ok [(stemOf name, [])] := by
  have hpc : parseContent content = some [] := parseContent_all_space content hws
  have hcond : ¬ (((⟨name, false, content⟩ : DirEntry).isDir = true)
      ∨ goExt (⟨name, false, content⟩ : DirEntry).name ≠ ".txt") := by
    simp [hext]
  unfold parseFolder parseFolderAux
  rw [if_neg hcond]
  simp only [hpc, insertA, parseFolderAux]
  rfl

/-- Witness for C9 at the file `sample1.txt` with whitespace-only
content. -/
theorem parseFolder_whitespace_only_file_witness :
    goExt "sample1.txt" = ".txt"
    ∧ (∀ c ∈ (" \t\n ").toList, isGoSpace c = true)
    ∧ parseFolder [⟨"sample1.txt", false, " \t\n "⟩] =
        .ok [(stemOf "sample1.txt", [])] :=
  ⟨by decide, by decide,
    parseFolder_whitespace_only_file "sample1.txt" " \t\n " (by decide) (by decide)⟩

/-! ## Lemmas about the training loop -/

theorem lrStep_prevLR (n : ℕ) : lrStep (prevLR n) n = scheduleLR n := by
  match n with
  | 0 => simp [lrStep, prevLR, scheduleLR]
  | m + 1 =>
    by_cases h15 : m + 1 = 15
    · simp only [lrStep, if_pos h15, if_neg (by omega : ¬ m + 1 = 150)]
      simp only [scheduleLR, if_neg (by omega : ¬ m + 1 < 15),
        if_pos (by omega : m + 1 < 150)]
    · by_cases h150 : m + 1 = 150
      · simp only [lrStep, if_neg h15, if_pos h150]
        simp only [scheduleLR, if_neg (by omega : ¬ m + 1 < 15),
          if_neg (by omega : ¬ m + 1 < 150)]
      · simp only [lrStep, if_neg h15, if_neg h150, prevLR]
        simp only [scheduleLR]
        split_ifs <;> first | rfl | omega

theorem trainLoopAux_cons_ok (iter : ℕ) (lr : ℚ) (s : SampleEnv)
    (rest : List SampleEnv) (h1 : s.imageLoadOk = true) (h2 : s.setTargetOk = true)
    (h3 : s.bindInputOk = true) (h4 : s.runGraphOk = true) :
    trainLoopAux iter lr (s :: rest) =
      ([.imageLoad true, .setTarget true, .bindInput true, .runGraph true,
        .stepCall iter (lrStep lr iter) s.stepOk] ++
       (if s.stepOk = true then [] else [.reportError .solverStep]) ++
       [.resetMachine] ++ (trainLoopAux (iter + 1) (lrStep lr iter) rest).1,
       (trainLoopAux (iter + 1) (lrStep lr iter) rest).2) := by
  have h1' : ¬ s.imageLoadOk = false := by simp [h1]
  have h2' : ¬ s.setTargetOk = false := by simp [h2]
  have h3' : ¬ s.bindInputOk = false := by simp [h3]
  have h4' : ¬ s.runGraphOk = false := by simp [h4]
  simp only [trainLoopAux, if_neg h1', if_neg h2', if_neg h3', if_neg h4']

theorem trainLoopAux_cons_imageLoad (iter : ℕ) (lr : ℚ) (s : SampleEnv)
    (rest : List SampleEnv) (h : s.imageLoadOk = false) :
    trainLoopAux iter lr (s :: rest) =
      ([.imageLoad false, .reportError .imageLoad], some .imageLoad) := by
  simp only [trainLoopAux, if_pos h]

theorem trainLoopAux_cons_setTarget (iter : ℕ) (lr : ℚ) (s : SampleEnv)
    (rest : List SampleEnv) (h1 : s.imageLoadOk = true) (h : s.setTargetOk = false) :
    trainLoopAux iter lr (s :: rest) =
      ([.imageLoad true, .setTarget false, .reportError .setTarget],
        some .setTarget) := by
  have h1' : ¬ s.imageLoadOk = false := by simp [h1]
  simp only [trainLoopAux, if_neg h1', if_pos h]

theorem trainLoopAux_cons_bindInput (iter : ℕ) (lr : ℚ) (s : SampleEnv)
    (rest : List SampleEnv) (h1 : s.imageLoadOk = true) (h2 : s.setTargetOk = true)
    (h : s.bindInputOk = false) :
    trainLoopAux iter lr (s :: rest) =
      ([.imageLoad true, .setTarget true, .bindInput false, .reportError .bindInput],
        some .bindInput) := by
  have h1' : ¬ s.imageLoadOk = false := by simp [h1]
  have h2' : ¬ s.setTargetOk = false := by simp [h2]
  simp only [trainLoopAux, if_neg h1', if_neg h2', if_pos h]

theorem trainLoopAux_cons_runGraph (iter : ℕ) (lr : ℚ) (s : SampleEnv)
    (rest : List SampleEnv) (h1 : s.imageLoadOk = true) (h2 : s.setTargetOk = true)
    (h3 : s.bindInputOk = true) (h : s.runGraphOk = false) :
    trainLoopAux iter lr (s :: rest) =
      ([.imageLoad true, .setTarget true, .bindInput true, .runGraph false,
        .reportError .runGraph], some .runGraph) := by
  have h1' : ¬ s.imageLoadOk = false := by simp [h1]
  have h2' : ¬ s.setTargetOk = false := by simp [h2]
  have h3' : ¬ s.bindInputOk = false := by simp [h3]
  simp only [trainLoopAux, if_neg h1', if_neg h2', if_neg h3', if_pos h]

theorem trainLoopAux_allOk (samples : List SampleEnv) :
    ∀ n, (∀ s ∈ samples, s.imageLoadOk = true ∧ s.setTargetOk = true ∧
      s.bindInputOk = true ∧ s.runGraphOk = true ∧ s.stepOk = true) →
    trainLoopAux n (prevLR n) samples =
      (((List.range' n samples.length).map okBlock).flatten, none) := by
  induction samples with
  | nil => intro n _; rfl
  | cons s rest ih =>
    intro n h
    obtain ⟨h1, h2, h3, h4, h5⟩ := h s (by simp)
    rw [trainLoopAux_cons_ok n (prevLR n) s rest h1 h2 h3 h4, lrStep_prevLR]
    have hrec : trainLoopAux (n + 1) (scheduleLR n) rest =
        (((List.range' (n + 1) rest.length).map okBlock).flatten, none) :=
      ih (n + 1) (fun s' hs' => h s' (by simp [hs']))
    rw [hrec]
    simp [okBlock, h5, List.length_cons, List.range'_succ]

theorem stepIters_okBlocks (l : List ℕ) :
    stepIters ((l.map okBlock).flatten) = l := by
  induction l with
  | nil => rfl
  | cons i rest ih =>
    simp only [List.map_cons, List.flatten_cons, stepIters, List.filterMap_append]
    have hblock : (okBlock i).filterMap (fun e =>
        match e with
        | .stepCall j _ _ => some j
        | _ => none) = [i] := rfl
    rw [hblock]
    simp only [stepIters] at ih
    rw [ih]
    rfl

theorem trainLoopAux_stepCall_mem (samples : List SampleEnv) :
    ∀ n i lr ok, MainEvent.stepCall i lr ok ∈ (trainLoopAux n (prevLR n) samples).1 →
      lr = scheduleLR i := by
  induction samples with
  | nil => intro n i lr ok h; simp [trainLoopAux] at h
  | cons s rest ih =>
    intro n i lr ok h
    by_cases h1 : s.imageLoadOk = false
    · rw [trainLoopAux_cons_imageLoad n (prevLR n) s rest h1] at h
      simp at h
    have h1' : s.imageLoadOk = true := by
      revert h1; cases s.imageLoadOk <;> simp
    by_cases h2 : s.setTargetOk = false
    · rw [trainLoopAux_cons_setTarget n (prevLR n) s rest h1' h2] at h
      simp at h
    have h2' : s.setTargetOk = true := by
      revert h2; cases s.setTargetOk <;> simp
    by_cases h3 : s.bindInputOk = false
    · rw [trainLoopAux_cons_bindInput n (prevLR n) s rest h1' h2' h3] at h
      simp at h
    have h3' : s.bindInputOk = true := by
      revert h3; cases s.bindInputOk <;> simp
    by_cases h4 : s.runGraphOk = false
    · rw [trainLoopAux_cons_runGraph n (prevLR n) s rest h1' h2' h3' h4] at h
      simp at h
    have h4' : s.runGraphOk = true := by
      revert h4; cases s.runGraphOk <;> simp
    rw [trainLoopAux_cons_ok n (prevLR n) s rest h1' h2' h3' h4', lrStep_prevLR] at h
    have hrest : MainEvent.stepCall i lr ok ∈
        (trainLoopAux (n + 1) (prevLR (n + 1)) rest).1 → lr = scheduleLR i :=
      ih (n + 1) i lr ok
    by_cases h5 : s.stepOk = true
    · rw [if_pos h5] at h
      simp only [List.append_nil, List.mem_append, List.mem_cons,
        List.not_mem_nil, or_false, reduceCtorEq, false_or,
        MainEvent.stepCall.injEq] at h
      rcases h with ⟨rfl, rfl, _⟩ | h
      · rfl
      · exact hrest h
    · rw [if_neg h5] at h
      simp only [List.mem_append, List.mem_cons, List.not_mem_nil, or_false,
        reduceCtorEq, false_or, MainEvent.stepCall.injEq] at h
      rcases h with ⟨rfl, rfl, _⟩ | h
      · rfl
      · exact hrest h

/-! ## The training-loop claims -/

/-- Claim C4: the learning rate passed to any `solver.Step` call of the
training loop is `1e-5` for iterations 0..14, `1e-6` from iteration 15
(after exactly 15 completed iterations), and `1e-7` from iteration 150
(after exactly 150 completed iterations), for every sample list — the
breakpoints are the fixed constants of the code. -/
theorem training_lr_schedule (samples : List SampleEnv) (i : ℕ) (lr : ℚ) (ok : Bool)
    (h : MainEvent.stepCall i lr ok ∈ (trainLoopAux 0 lrInitial samples).1) :
    lr = if i < 15 then lrInitial else if i < 150 then lrAfter15 else lrAfter150 :=
  trainLoopAux_stepCall_mem samples 0 i lr ok h

/-- Witness for C4 at a one-sample run. -/
theorem training_lr_schedule_witness :
    MainEvent.stepCall 0 lrInitial true ∈
      (trainLoopAux 0 lrInitial [⟨true, true, true, true, true⟩]).1
    ∧ lrInitial =
        if 0 < 15 then lrInitial else if 0 < 150 then lrAfter15 else lrAfter150 :=
  ⟨by decide,
    training_lr_schedule [⟨true, true, true, true, true⟩] 0 lrInitial true (by decide)⟩

/-- Claim C5: during training, a failing `solver.Step` is reported and the
loop goes on to the next sample (the loop's tail trace and abort status
are those of the remaining samples, whatever `stepOk` is), while a failing
image load, target set, input bind, or graph execution stops the run at
once: the trace ends at the reported failure and the remaining samples
are never processed. -/
theorem training_loop_error_policy (iter : ℕ) (lr : ℚ) (s : SampleEnv)
    (rest : List SampleEnv) :
    (s.imageLoadOk = true ∧ s.setTargetOk = true ∧ s.bindInputOk = true ∧
      s.runGraphOk = true →
      trainLoopAux iter lr (s :: rest) =
        ([.imageLoad true, .setTarget true, .bindInput true, .runGraph true,
          .stepCall iter (lrStep lr iter) s.stepOk] ++
         (if s.stepOk = true then [] else [.reportError .solverStep]) ++
         [.resetMachine] ++ (trainLoopAux (iter + 1) (lrStep lr iter) rest).1,
         (trainLoopAux (iter + 1) (lrStep lr iter) rest).2))
    ∧ (s.imageLoadOk = false →
        trainLoopAux iter lr (s :: rest) =
          ([.imageLoad false, .reportError .imageLoad], some .imageLoad))
    ∧ (s.imageLoadOk = true ∧ s.setTargetOk = false →
        trainLoopAux iter lr (s :: rest) =
          ([.imageLoad true, .setTarget false, .reportError .setTarget],
            some .setTarget))
    ∧ (s.imageLoadOk = true ∧ s.setTargetOk = true ∧ s.bindInputOk = false →
        trainLoopAux iter lr (s :: rest) =
          ([.imageLoad true, .setTarget true, .bindInput false,
            .reportError .bindInput], some .bindInput))
    ∧ (s.imageLoadOk = true ∧ s.setTargetOk = true ∧ s.bindInputOk = true ∧
        s.runGraphOk = false →
        trainLoopAux iter lr (s :: rest) =
          ([.imageLoad true, .setTarget true, .bindInput true, .runGraph false,
            .reportError .runGraph], some .runGraph)) :=
  ⟨fun ⟨h1, h2, h3, h4⟩ => trainLoopAux_cons_ok iter lr s rest h1 h2 h3 h4,
   fun h => trainLoopAux_cons_imageLoad iter lr s rest h,
   fun ⟨h1, h⟩ => trainLoopAux_cons_setTarget iter lr s rest h1 h,
   fun ⟨h1, h2, h⟩ => trainLoopAux_cons_bindInput iter lr s rest h1 h2 h,
   fun ⟨h1, h2, h3, h⟩ => trainLoopAux_cons_runGraph iter lr s rest h1 h2 h3 h⟩

/-- Witness for C5: a failed optimizer step is reported and the second
sample still runs; a failed image load ends the run with the second
sample unprocessed. -/
theorem training_loop_error_policy_witness :
    (trainLoopAux 0 lrInitial
        [⟨true, true, true, true, false⟩, ⟨true, true, true, true, true⟩] =
      ([.imageLoad true, .setTarget true, .bindInput true, .runGraph true,
        .stepCall 0 (lrStep lrInitial 0) false] ++
       (if (false : Bool) = true then [] else [.reportError .solverStep]) ++
       [.resetMachine] ++
       (trainLoopAux 1 (lrStep lrInitial 0) [⟨true, true, true, true, true⟩]).1,
       (trainLoopAux 1 (lrStep lrInitial 0) [⟨true, true, true, true, true⟩]).2))
    ∧ (trainLoopAux 0 lrInitial
        [⟨false, true, true, true, true⟩, ⟨true, true, true, true, true⟩] =
        ([.imageLoad false, .reportError .imageLoad], some .imageLoad)) :=
  ⟨(training_loop_error_policy 0 lrInitial ⟨true, true, true, true, false⟩
      [⟨true, true, true, true, true⟩]).1 (by decide),
   (training_loop_error_policy 0 lrInitial ⟨false, true, true, true, true⟩
      [⟨true, true, true, true, true⟩]).2.1 (by decide)⟩

/-- Claim C6: when the annotation folder parses to a map `m`, the
pre-loop setup succeeds, and every external call of every sample
succeeds, the trainer path performs exactly one block per key of `m` —
one image load, target set, input bind, forward+backward run, then
exactly one optimizer step, then a machine reset — with iteration indices
0, 1, ..., in order, and no error is reported. -/
theorem trainer_one_pass (t : TrainEnv) (m : List (String × List ℚ))
    (hp : parseFolder t.trainDir = .ok m)
    (hsetup : t.activateOk = true ∧ t.concatOk = true ∧ t.sumOk = true ∧
      t.gradOk = true ∧ t.compileOk = true)
    (hlen : t.samples.length = m.length)
    (hok : ∀ s ∈ t.samples, s.imageLoadOk = true ∧ s.setTargetOk = true ∧
      s.bindInputOk = true ∧ s.runGraphOk = true ∧ s.stepOk = true) :
    trainingTrace t =
      .parseAnnotations true :: ((List.range m.length).map okBlock).flatten
    ∧ stepIters (trainingTrace t) = List.range m.length := by
  obtain ⟨ha, hc, hs, hg, hcp⟩ := hsetup
  have ha' : ¬ t.activateOk = false := by simp [ha]
  have hc' : ¬ t.concatOk = false := by simp [hc]
  have hs' : ¬ t.sumOk = false := by simp [hs]
  have hg' : ¬ t.gradOk = false := by simp [hg]
  have hcp' : ¬ t.compileOk = false := by simp [hcp]
  have hloop : trainLoopAux 0 lrInitial t.samples =
      (((List.range' 0 t.samples.length).map okBlock).flatten, none) :=
    trainLoopAux_allOk t.samples 0 hok
  have htrace : trainingTrace t =
      .parseAnnotations true :: ((List.range m.length).map okBlock).flatten := by
    unfold trainingTrace
    rw [hp]
    rw [if_neg ha', if_neg hc', if_neg hs', if_neg hg', if_neg hcp', hloop]
    rw [hlen, ← List.range_eq_range']
  refine ⟨htrace, ?_⟩
  rw [htrace]
  have hcons : stepIters
      (.parseAnnotations true :: ((List.range m.length).map okBlock).flatten) =
      stepIters (((List.range m.length).map okBlock).flatten) := rfl
  rw [hcons, stepIters_okBlocks]

/-- The training environment used to witness C6: the spec's scenario with
one annotation file `sample1.txt` next to a matching image, and every
external call succeeding. -/
def wTrainC6 : TrainEnv :=
  ⟨[⟨"sample1.txt", false, "0.1 0.2 0.3 0.4"⟩], true, true, true, true, true,
   [⟨true, true, true, true, true⟩]⟩

/-- Witness for C6: the one-entry folder yields exactly one optimizer
step and no error. -/
theorem trainer_one_pass_witness :
    parseFolder wTrainC6.trainDir =
      .ok [("sample1", [mkRat 1 10, mkRat 1 5, mkRat 3 10, mkRat 2 5])]
    ∧ (wTrainC6.samples.length =
        [("sample1", [mkRat 1 10, mkRat 1 5, mkRat 3 10, mkRat 2 5])].length)
    ∧ trainingTrace wTrainC6 =
        .parseAnnotations true ::
          ((List.range
            [("sample1", [mkRat 1 10, mkRat 1 5, mkRat 3 10, mkRat 2 5])].length).map
              okBlock).flatten
    ∧ stepIters (trainingTrace wTrainC6) =
        List.range
          [("sample1", [mkRat 1 10, mkRat 1 5, mkRat 3 10, mkRat 2 5])].length :=
  ⟨by decide, by decide,
    (trainer_one_pass wTrainC6 _ (by decide) (by decide) (by decide) (by decide)).1,
    (trainer_one_pass wTrainC6 _ (by decide) (by decide) (by decide) (by decide)).2⟩

/-! ## Lemmas about the detector post-processing -/

theorem interArea_comm (a b : Box) : interArea a b = interArea b a := by
  unfold interArea
  rw [min_comm a.x2 b.x2, max_comm a.x1 b.x1, min_comm a.y2 b.y2,
    max_comm a.y1 b.y1]

theorem iou_symm (a b : Box) : iou a b = iou b a := by
  unfold iou
  rw [interArea_comm, add_comm (area a) (area b)]

theorem mem_insertByScore (d x : Detection) (l : List Detection)
    (h : x ∈ insertByScore d l) : x = d ∨ x ∈ l := by
  induction l with
  | nil => exact Or.inl (List.mem_singleton.mp h)
  | cons y ys ih =>
    by_cases hs : y.score < d.score
    · rw [insertByScore, if_pos hs] at h
      rcases List.mem_cons.mp h with rfl | h'
      · exact Or.inl rfl
      · exact Or.inr h'
    · rw [insertByScore, if_neg hs] at h
      rcases List.mem_cons.mp h with rfl | h'
      · exact Or.inr (by simp)
      · rcases ih h' with rfl | h''
        · exact Or.inl rfl
        · exact Or.inr (by simp [h''])

theorem mem_sortByScore (l : List Detection) (x : Detection)
    (h : x ∈ sortByScore l) : x ∈ l := by
  induction l with
  | nil => exact absurd h (by simp [sortByScore])
  | cons y ys ih =>
    rcases mem_insertByScore y x (sortByScore ys) h with rfl | h'
    · simp
    · exact List.mem_cons_of_mem y (ih h')

theorem nmsAux_subset :
    ∀ (l kept : List Detection) (x : Detection), x ∈ nmsAux kept l →
      x ∈ kept ∨ x ∈ l := by
  intro l
  induction l with
  | nil => intro kept x h; exact Or.inl h
  | cons d rest ih =>
    intro kept x h
    by_cases hsup : suppressed kept d
    · rw [nmsAux, if_pos hsup] at h
      rcases ih kept x h with h' | h'
      · exact Or.inl h'
      · exact Or.inr (by simp [h'])
    · rw [nmsAux, if_neg hsup] at h
      rcases ih (kept ++ [d]) x h with h' | h'
      · rcases List.mem_append.mp h' with h'' | h''
        · exact Or.inl h''
        · exact Or.inr (by simp [List.mem_singleton.mp h''])
      · exact Or.inr (by simp [h'])

theorem nmsAux_pairwise :
    ∀ (l kept : List Detection),
      kept.Pairwise (fun a b => a.label = b.label → iou a.box b.box ≤ iouThreshold) →
      (nmsAux kept l).Pairwise
        (fun a b => a.label = b.label → iou a.box b.box ≤ iouThreshold) := by
  intro l
  induction l with
  | nil => intro kept h; exact h
  | cons d rest ih =>
    intro kept h
    by_cases hsup : suppressed kept d
    · rw [nmsAux, if_pos hsup]
      exact ih kept h
    · rw [nmsAux, if_neg hsup]
      apply ih
      rw [List.pairwise_append]
      refine ⟨h, List.pairwise_singleton _ _, ?_⟩
      intro a ha b hb hlab
      rw [List.mem_singleton.mp hb] at hlab ⊢
      by_contra hgt
      exact hsup ⟨a, ha, hlab, lt_of_not_ge hgt⟩

/-! ## The detector-path claim -/

/-- Claim C7 (the suppression itself is modelled from the spec, see
`processOutput`): the post-processed detection list contains no detection
with confidence below the 0.8 score threshold, and no two distinct
detections of the same class whose boxes overlap with IoU above the 0.3
threshold. -/
theorem detector_output_filtered (dets : List Detection) :
    (∀ d ∈ processOutput dets, ¬ d.score < scoreThreshold)
    ∧ (∀ a ∈ processOutput dets, ∀ b ∈ processOutput dets, a ≠ b →
        a.label = b.label → iou a.box b.box ≤ iouThreshold) := by
  constructor
  · intro d hd
    rcases nmsAux_subset _ [] d hd with h | h
    · simp at h
    · have h2 := mem_sortByScore _ _ h
      have h3 := List.mem_filter.mp h2
      exact not_lt.mpr (of_decide_eq_true h3.2)
  · have hpw := nmsAux_pairwise
      (sortByScore (dets.filter (fun d => decide (scoreThreshold ≤ d.score)))) []
      List.Pairwise.nil
    have hsymm : Symmetric (fun a b : Detection =>
        a.label = b.label → iou a.box b.box ≤ iouThreshold) := by
      intro a b hab hlab
      rw [iou_symm]
      exact hab hlab.symm
    intro a ha b hb hne
    exact hpw.forall hsymm ha hb hne

/-! ## The mode-dispatch claims -/

/-- A detector environment with every external call succeeding and no raw
detections, for concrete runs. -/
def detAllOk : DetectorEnv := ⟨true, true, true, true, []⟩

/-- A training environment over an empty folder, for concrete runs. -/
def trainEmpty : TrainEnv := ⟨[], true, true, true, true, true, []⟩

/-- Claim C8: when the lower-cased mode string is neither `"detector"`
nor `"training"` (and the model was built), the run is exactly build,
print, and the unimplemented-mode report: the error is reported, no
event of either path happens, and the run ends normally. -/
theorem unrecognized_mode (env : MainEnv) (hok : env.constructOk = true)
    (h1 : goToLower env.mode ≠ "detector") (h2 : goToLower env.mode ≠ "training") :
    mainTrace env = [.buildModel true, .printModel, .reportError .badMode]
    ∧ ∀ e ∈ mainTrace env, isModeEvent e = false := by
  have hok' : ¬ env.constructOk = false := by simp [hok]
  have htr : mainTrace env = [.buildModel true, .printModel, .reportError .badMode] := by
    unfold mainTrace modeDispatch
    rw [if_neg hok', if_neg h1, if_neg h2]
  refine ⟨htr, ?_⟩
  rw [htr]
  decide

/-- Witness for C8 at the misspelled mode string `"Detektor"`. -/
theorem unrecognized_mode_witness :
    ((MainEnv.mk true "Detektor" detAllOk trainEmpty).constructOk = true
      ∧ goToLower (MainEnv.mk true "Detektor" detAllOk trainEmpty).mode ≠ "detector"
      ∧ goToLower (MainEnv.mk true "Detektor" detAllOk trainEmpty).mode ≠ "training")
    ∧ mainTrace (MainEnv.mk true "Detektor" detAllOk trainEmpty) =
        [.buildModel true, .printModel, .reportError .badMode]
    ∧ ∀ e ∈ mainTrace (MainEnv.mk true "Detektor" detAllOk trainEmpty),
        isModeEvent e = false :=
  ⟨⟨by decide, by decide, by decide⟩,
   (unrecognized_mode _ (by decide) (by decide) (by decide)).1,
   (unrecognized_mode _ (by decide) (by decide) (by decide)).2⟩

/-- Claim C10: every run starts by building the model; a construction
failure is reported and ends the run before any mode event, and a
successful construction is followed by printing the model and only then
by the mode dispatch. -/
theorem model_built_before_mode (env : MainEnv) :
    (mainTrace env).head? = some (.buildModel env.constructOk)
    ∧ (env.constructOk = false →
        mainTrace env = [.buildModel false, .reportError .construct]
        ∧ ∀ e ∈ mainTrace env, isModeEvent e = false)
    ∧ (env.constructOk = true →
        mainTrace env = .buildModel true :: .printModel :: modeDispatch env) := by
  by_cases h : env.constructOk = false
  · have htr : mainTrace env = [.buildModel false, .reportError .construct] := by
      unfold mainTrace
      rw [if_pos h]
    refine ⟨?_, fun _ => ⟨htr, ?_⟩, fun hc => by simp [h] at hc⟩
    · rw [htr, h]
      rfl
    · rw [htr]
      decide
  · have ht : env.constructOk = true := by
      revert h; cases env.constructOk <;> simp
    have htr : mainTrace env = .buildModel true :: .printModel :: modeDispatch env := by
      unfold mainTrace
      rw [if_neg h]
    refine ⟨?_, fun hc => by simp [ht] at hc, fun _ => htr⟩
    rw [htr, ht]
    rfl

/-- Witness for C10 at a run whose model construction fails. -/
theorem model_built_before_mode_witness :
    (mainTrace (MainEnv.mk false "training" detAllOk trainEmpty)).head? =
      some (.buildModel (MainEnv.mk false "training" detAllOk trainEmpty).constructOk)
    ∧ mainTrace (MainEnv.mk false "training" detAllOk trainEmpty) =
        [.buildModel false, .reportError .construct]
    ∧ ∀ e ∈ mainTrace (MainEnv.mk false "training" detAllOk trainEmpty),
        isModeEvent e = false :=
  ⟨(model_built_before_mode _).1,
   ((model_built_before_mode _).2.1 (by decide)).1,
   ((model_built_before_mode _).2.1 (by decide)).2⟩

end YoloGo
